import Mathlib

/-!
# Calendario: the in-memory event service and the event screen

Shallow embedding of `src/calendario/Service/service.js` (the module-level
array `events` with `getEvents`, `addEvent`, `updateEvent`, `deleteEvent`) and
of the handlers of `src/calendario/App.js` (`loadEvents`, `handleAddEvent`,
`handleUpdateEvent`, `handleDeleteEvent`, `handleSelectEvent`, the calendar
`onDayPress` and the submit button `onPress`).

JavaScript objects are held by reference. `addEvent` writes the property `id`
on the object it is given and pushes that same object, and `updateEvent` stores
the object it is given, so an object can be reachable both from the caller and
from one or several slots of `events`. The embedding therefore keeps an object
heap: an event is an address (`Ref`), its properties are read through the heap,
and the array `events` is the sequence of addresses it holds; an array handed
out by `getEvents` is read as the sequence of addresses it holds at that time.
The program state is passed explicitly: every service function takes the current state and returns
its JavaScript return value paired with the state afterwards. The `async`
functions contain no suspension point between reading and writing, so each call
is one atomic step.
-/

namespace Calendario

/-! ## Data model -/

/-- Address of a JavaScript object: two variables hold the same object exactly when they hold
the same address. -/
abbrev Ref := Nat

/-- The properties of an event object. The property `id` is `none` when it is `undefined`, as in
the object literal `{ title, date }` before `addEvent` has written it. -/
structure Event where
  id : Option Int
  title : String
  date : String
deriving DecidableEq, Repr

/-- The object literal `{ success: true }` returned by `deleteEvent`. -/
structure DeleteResult where
  success : Bool
deriving DecidableEq, Repr

/-- The part of the program state that service.js reads and writes: the objects (`heap`) and the
module-level variable `events`, an array of object references. -/
structure State where
  heap : Ref → Event
  events : List Ref

/-- The objects that an array of references holds, read in state `s`: what a caller sees when it
reads the elements of the array. -/
def State.contents (s : State) (refs : List Ref) : List Event :=
  refs.map s.heap

/-- The `id` properties of the stored events, in array order. -/
def State.ids (s : State) : List (Option Int) :=
  s.events.map (fun event => (s.heap event).id)

/-- The object literal evaluated into the address `literal`: that address now holds the object
`value`, every other object is as before. -/
def State.allocate (s : State) (literal : Ref) (value : Event) : State :=
  { s with heap := fun r => if r = literal then value else s.heap r }

/-! ## Service/service.js -/

/-- The three objects of the hardcoded array (service.js, lines 2-6) at the addresses 0, 1, 2;
every other address holds an object of the client, `client r`. -/
def initialHeap (client : Ref → Event) : Ref → Event
  | 0 => { id := some 1, title := "Evento de Cumpleaños", date := "2024-10-29" }
  | 1 => { id := some 2, title := "Reunión de Trabajo", date := "2024-10-30" }
  | 2 => { id := some 3, title := "Cena Familiar", date := "2024-10-31" }
  | r => client r

/-- The state when the module has just been loaded: `events` holds the three hardcoded objects
(service.js, lines 2-6). -/
def initialState (client : Ref → Event) : State :=
  { heap := initialHeap client, events := [0, 1, 2] }

/-- `getEvents`: `return events;` (service.js, lines 9-11). -/
def getEvents (s : State) : List Ref × State :=
  (s.events, s)

/-- `addEvent`: `newEvent.id = events.length + 1; events.push(newEvent); return newEvent;`
(service.js, lines 14-18). The write goes to the object `newEvent` itself, whoever else holds
it. -/
def addEvent (newEvent : Ref) (s : State) : Ref × State :=
  let heap1 : Ref → Event := fun r =>
    if r = newEvent then { s.heap newEvent with id := some ((s.events.length : Int) + 1) }
    else s.heap r
  (newEvent, { heap := heap1, events := s.events ++ [newEvent] })

/-- `updateEvent`: `events = events.map((event) => event.id === updatedEvent.id ? updatedEvent : event);
return updatedEvent;` (service.js, lines 21-26). -/
def updateEvent (updatedEvent : Ref) (s : State) : Ref × State :=
  (updatedEvent,
    { s with events := s.events.map (fun event =>
        if (s.heap event).id = (s.heap updatedEvent).id then updatedEvent else event) })

/-- `deleteEvent`: `events = events.filter((event) => event.id !== id); return { success: true };`
(service.js, lines 29-32). The argument is `none` when it is `undefined`. -/
def deleteEvent (id : Option Int) (s : State) : DeleteResult × State :=
  ({ success := true },
    { s with events := s.events.filter (fun event => decide ((s.heap event).id ≠ id)) })

/-! ## Sequences of service calls -/

/-- One call of a service function by a client of the module; the argument of `addEvent` and of
`updateEvent` is the object the client passes. -/
inductive StoreOp where
  | list : StoreOp
  | create (newEvent : Ref) : StoreOp
  | update (updatedEvent : Ref) : StoreOp
  | delete (id : Option Int) : StoreOp
deriving DecidableEq, Repr

/-- The state after one service call. -/
def step (s : State) : StoreOp → State
  | StoreOp.list => (getEvents s).2
  | StoreOp.create newEvent => (addEvent newEvent s).2
  | StoreOp.update updatedEvent => (updateEvent updatedEvent s).2
  | StoreOp.delete id => (deleteEvent id s).2

/-- The state after a sequence of service calls, first call first. -/
def run (ops : List StoreOp) (s : State) : State :=
  ops.foldl step s

/-- The arguments of the `addEvent` calls in a sequence, in call order. -/
def creates : List StoreOp → List Ref
  | [] => []
  | StoreOp.create newEvent :: ops => newEvent :: creates ops
  | _ :: ops => creates ops

/-- Whether a call is `getEvents` or `addEvent`. -/
def StoreOp.isListOrCreate : StoreOp → Bool
  | StoreOp.list => true
  | StoreOp.create _ => true
  | _ => false

/-- Whether a call is anything but `deleteEvent`. -/
def StoreOp.isNotDelete : StoreOp → Bool
  | StoreOp.delete _ => false
  | _ => true

/-- Whether every `addEvent` call of the sequence, run from state `s`, is given an object that
`events` does not hold at the time of the call. -/
def freshCreates : List StoreOp → State → Bool
  | [], _ => true
  | StoreOp.create newEvent :: ops, s =>
    decide (newEvent ∉ s.events) && freshCreates ops (step s (StoreOp.create newEvent))
  | op :: ops, s => freshCreates ops (step s op)

/-- Client objects for the examples: every address from 3 on holds the object literal
`{ title: "Taller", date: "2024-11-02" }`. -/
def tallerDrafts : Ref → Event :=
  fun _ => { id := none, title := "Taller", date := "2024-11-02" }

/-- The start of the scenario of C8: `events` is `[{id:1, title:"A", date:"2024-01-01"}]` (address
0), and the client holds the literals `{title:"B", date:"2024-01-02"}` (address 1) and
`{title:"C", date:"2024-01-03"}` (address 2). -/
def scenarioState : State :=
  { heap := fun r =>
      match r with
      | 0 => { id := some 1, title := "A", date := "2024-01-01" }
      | 1 => { id := none, title := "B", date := "2024-01-02" }
      | _ => { id := none, title := "C", date := "2024-01-03" }
    events := [0] }

/-! ## App.js -/

/-- The state behind the screen: the program state shared with the service (`state`), the address
the next object literal is evaluated into (`next`), and the four `useState` cells of `App`
(`events`, `selectedEvent`, `title`, `date`). -/
structure Screen where
  state : State
  next : Ref
  events : List Ref
  selectedEvent : Option Ref
  title : String
  date : String

/-- The state of a freshly mounted `App` before the `useEffect` has run. -/
def Screen.mount : Screen :=
  { state := initialState (fun _ => { id := none, title := "", date := "" }), next := 3,
    events := [], selectedEvent := none, title := "", date := "" }

/-- Every object that the service or the screen holds lies below the address of the next
literal. -/
def Screen.Valid (s : Screen) : Prop :=
  (∀ r ∈ s.state.events, r < s.next) ∧ (∀ r ∈ s.events, r < s.next) ∧
  (∀ r, s.selectedEvent = some r → r < s.next)

/-- `loadEvents`: `const eventsFromApi = await getEvents(); setEvents(eventsFromApi);`
(App.js, lines 41-44). -/
def loadEvents (s : Screen) : Screen :=
  let r := getEvents s.state
  { s with state := r.2, events := r.1 }

/-- `handleAddEvent` (App.js, lines 47-54); a string is truthy exactly when it is non-empty, and
`{ title, date }` is a new object. -/
def handleAddEvent (s : Screen) : Screen :=
  if s.title ≠ "" ∧ s.date ≠ "" then
    let literal := s.state.allocate s.next { id := none, title := s.title, date := s.date }
    let r := addEvent s.next literal
    let s1 := loadEvents { s with state := r.2, next := s.next + 1 }
    { s1 with title := "", date := "" }
  else s

/-- `handleUpdateEvent` (App.js, lines 57-65); `selectedEvent` is truthy exactly when it is
not `null`, and `{ id: selectedEvent.id, title, date }` is a new object. -/
def handleUpdateEvent (s : Screen) : Screen :=
  match s.selectedEvent with
  | some selected =>
    if s.title ≠ "" ∧ s.date ≠ "" then
      let literal := s.state.allocate s.next
        { id := (s.state.heap selected).id, title := s.title, date := s.date }
      let r := updateEvent s.next literal
      let s1 := loadEvents { s with state := r.2, next := s.next + 1 }
      { s1 with selectedEvent := none, title := "", date := "" }
    else s
  | none => s

/-- `handleDeleteEvent` (App.js, lines 68-71). -/
def handleDeleteEvent (id : Option Int) (s : Screen) : Screen :=
  let r := deleteEvent id s.state
  loadEvents { s with state := r.2 }

/-- `handleSelectEvent` (App.js, lines 74-78). -/
def handleSelectEvent (event : Ref) (s : Screen) : Screen :=
  { s with selectedEvent := some event, title := (s.state.heap event).title,
           date := (s.state.heap event).date }

/-- The calendar callback `onDayPress={(day) => setDate(day.dateString)}` (App.js, line 94). -/
def onDayPress (dateString : String) (s : Screen) : Screen :=
  { s with date := dateString }

/-- The submit button: `onPress={selectedEvent ? handleUpdateEvent : handleAddEvent}`
(App.js, line 132). -/
def onPress (s : Screen) : Screen :=
  if s.selectedEvent.isSome then handleUpdateEvent s else handleAddEvent s

/-! ## Shared lemmas -/

theorem run_cons (op : StoreOp) (ops : List StoreOp) (s : State) :
    run (op :: ops) s = run ops (step s op) := rfl

theorem addEvent_heap_of_ne (newEvent r : Ref) (s : State) (h : r ≠ newEvent) :
    (addEvent newEvent s).2.heap r = s.heap r := by
  simp [addEvent, h]

theorem addEvent_heap_self (newEvent : Ref) (s : State) :
    (addEvent newEvent s).2.heap newEvent =
      { s.heap newEvent with id := some ((s.events.length : Int) + 1) } := by
  simp [addEvent]

theorem addEvent_title_date (newEvent r : Ref) (s : State) :
    ((addEvent newEvent s).2.heap r).title = (s.heap r).title ∧
    ((addEvent newEvent s).2.heap r).date = (s.heap r).date := by
  by_cases h : r = newEvent
  · subst h
    simp [addEvent]
  · simp [addEvent, h]

theorem addEvent_contents_of_fresh (newEvent : Ref) (s : State) (refs : List Ref)
    (h : newEvent ∉ refs) : (addEvent newEvent s).2.contents refs = s.contents refs := by
  simp only [State.contents]
  apply List.map_congr_left
  intro r hr
  exact addEvent_heap_of_ne newEvent r s (fun heq => h (heq ▸ hr))

theorem addEvent_ids_of_fresh (newEvent : Ref) (s : State) (h : newEvent ∉ s.events) :
    (addEvent newEvent s).2.ids = s.ids ++ [some ((s.events.length : Int) + 1)] := by
  have hold : (addEvent newEvent s).2.contents s.events = s.contents s.events :=
    addEvent_contents_of_fresh newEvent s s.events h
  have hmap : s.events.map (fun event => ((addEvent newEvent s).2.heap event).id) =
      s.events.map (fun event => (s.heap event).id) := by
    have := congrArg (List.map Event.id) hold
    simpa [State.contents, List.map_map, Function.comp_def] using this
  have hself := addEvent_heap_self newEvent s
  have hev : (addEvent newEvent s).2.events = s.events ++ [newEvent] := rfl
  simp only [State.ids, hev, List.map_append, List.map_singleton, List.map_cons, List.map_nil,
    hmap, hself]

theorem updateEvent_ids (e : Ref) (s : State) : (updateEvent e s).2.ids = s.ids := by
  simp only [State.ids, updateEvent, List.map_map]
  apply List.map_congr_left
  intro x _
  by_cases h : (s.heap x).id = (s.heap e).id <;> simp [h]

theorem deleteEvent_of_no_match (id : Option Int) (s : State)
    (h : ∀ r ∈ s.events, (s.heap r).id ≠ id) : (deleteEvent id s).2 = s := by
  have hf : s.events.filter (fun event => decide ((s.heap event).id ≠ id)) = s.events :=
    List.filter_eq_self.mpr (fun r hr => by simpa using h r hr)
  simp only [deleteEvent, hf]

theorem deleteEvent_sublist (id : Option Int) (s : State) :
    (deleteEvent id s).2.events.Sublist s.events := by
  simp only [deleteEvent]
  exact List.filter_sublist s.events

theorem deleteEvent_nodup (id : Option Int) (s : State) (h : s.ids.Nodup) :
    (deleteEvent id s).2.ids.Nodup := by
  have hs : (deleteEvent id s).2.ids.Sublist s.ids := by
    simp only [State.ids]
    exact (deleteEvent_sublist id s).map _
  exact h.sublist hs

theorem filter_length_of_nodup (heap : Ref → Event) (id : Option Int) (refs : List Ref)
    (hn : (refs.map (fun event => (heap event).id)).Nodup)
    (hm : ∃ r ∈ refs, (heap r).id = id) :
    (refs.filter (fun event => decide ((heap event).id ≠ id))).length + 1 = refs.length := by
  induction refs with
  | nil => simp at hm
  | cons x xs ih =>
    rw [List.map_cons, List.nodup_cons] at hn
    by_cases hx : (heap x).id = id
    · have hno : ∀ r ∈ xs, (heap r).id ≠ id := by
        intro r hr heq
        exact hn.1 (List.mem_map.mpr ⟨r, hr, by rw [heq, hx]⟩)
      have hf : xs.filter (fun event => decide ((heap event).id ≠ id)) = xs :=
        List.filter_eq_self.mpr (fun r hr => by simpa using hno r hr)
      simp only [List.filter_cons, hx, ne_eq, not_true_eq_false, decide_False,
        Bool.false_eq_true, if_false, List.length_cons, Nat.add_right_cancel_iff]
      exact congrArg List.length hf
    · have hm2 : ∃ r ∈ xs, (heap r).id = id := by
        obtain ⟨r, hr, heq⟩ := hm
        rcases List.mem_cons.mp hr with rfl | hr2
        · exact absurd heq hx
        · exact ⟨r, hr2, heq⟩
      have := ih hn.2 hm2
      simp only [List.filter_cons, hx, ne_eq, not_false_eq_true, decide_True,
        if_true, List.length_cons, Nat.add_right_cancel_iff]
      exact this

theorem deleteEvent_length_of_nodup (id : Option Int) (s : State) (hn : s.ids.Nodup)
    (hm : ∃ r ∈ s.events, (s.heap r).id = id) :
    (deleteEvent id s).2.events.length + 1 = s.events.length :=
  filter_length_of_nodup s.heap id s.events hn hm

theorem run_listOrCreate (ops : List StoreOp) (hops : ∀ op ∈ ops, op.isListOrCreate = true)
    (s : State) :
    (run ops s).events = s.events ++ creates ops ∧
    ∀ r : Ref, ((run ops s).heap r).title = (s.heap r).title ∧
      ((run ops s).heap r).date = (s.heap r).date := by
  induction ops generalizing s with
  | nil => simp [run, creates]
  | cons op ops ih =>
    have hop := hops op (by simp)
    have ih1 := ih (fun o ho => hops o (List.mem_cons_of_mem _ ho))
    rw [run_cons]
    cases op with
    | list => simpa [step, getEvents, creates] using ih1 s
    | create newEvent =>
      obtain ⟨hev, hheap⟩ := ih1 (step s (StoreOp.create newEvent))
      refine ⟨?_, ?_⟩
      · rw [hev]
        simp [step, addEvent, creates]
      · intro r
        have h1 := hheap r
        have h2 := addEvent_title_date newEvent r s
        simp only [step] at h1
        exact ⟨h1.1.trans h2.1, h1.2.trans h2.2⟩
    | update updatedEvent => simp [StoreOp.isListOrCreate] at hop
    | delete id => simp [StoreOp.isListOrCreate] at hop

theorem run_ids_of_fresh_creates (ops : List StoreOp)
    (hops : ∀ op ∈ ops, op.isNotDelete = true) (s : State)
    (hfresh : freshCreates ops s = true)
    (hs : s.ids = (List.range s.events.length).map (fun (i : Nat) => some ((i : Int) + 1))) :
    (run ops s).ids =
      (List.range (run ops s).events.length).map (fun (i : Nat) => some ((i : Int) + 1)) := by
  induction ops generalizing s with
  | nil => simpa [run] using hs
  | cons op ops ih =>
    have hop := hops op (by simp)
    have ih1 := ih (fun o ho => hops o (List.mem_cons_of_mem _ ho))
    rw [run_cons]
    cases op with
    | list =>
      simp only [freshCreates] at hfresh
      exact ih1 _ hfresh (by simpa [step, getEvents] using hs)
    | create newEvent =>
      simp only [freshCreates, Bool.and_eq_true, decide_eq_true_eq] at hfresh
      refine ih1 _ hfresh.2 ?_
      simp only [step]
      rw [addEvent_ids_of_fresh newEvent s hfresh.1, hs]
      simp [addEvent, List.range_succ]
    | update updatedEvent =>
      simp only [freshCreates] at hfresh
      refine ih1 _ hfresh ?_
      simp only [step]
      rw [updateEvent_ids, hs]
      simp [updateEvent]
    | delete id => simp [StoreOp.isNotDelete] at hop

theorem ids_contiguous_of_fresh_creates (client : Ref → Event) (ops : List StoreOp)
    (hops : ∀ op ∈ ops, op.isNotDelete = true)
    (hfresh : freshCreates ops (initialState client) = true) :
    (run ops (initialState client)).ids =
      (List.range (run ops (initialState client)).events.length).map
        (fun (i : Nat) => some ((i : Int) + 1)) ∧
    (run ops (initialState client)).ids.Nodup := by
  have h := run_ids_of_fresh_creates ops hops (initialState client) hfresh rfl
  refine ⟨h, ?_⟩
  rw [h]
  refine List.Nodup.map ?_ (List.nodup_range _)
  intro a b hab
  simpa using hab

theorem Screen.valid_mount : Screen.mount.Valid := by
  refine ⟨?_, ?_, ?_⟩
  · intro r hr
    have hr3 : r = 0 ∨ r = 1 ∨ r = 2 := by simpa [Screen.mount, initialState] using hr
    show r < 3
    rcases hr3 with rfl | rfl | rfl <;> decide
  · intro r hr
    simp [Screen.mount] at hr
  · intro r hr
    simp [Screen.mount] at hr

theorem Screen.next_fresh (s : Screen) (h : s.Valid) : s.next ∉ s.state.events :=
  fun hmem => Nat.lt_irrefl _ (h.1 s.next hmem)

theorem handleAddEvent_valid (s : Screen) (h : s.Valid) : (handleAddEvent s).Valid := by
  by_cases hc : s.title ≠ "" ∧ s.date ≠ ""
  · have hst : ∀ r ∈ s.state.events ++ [s.next], r < s.next + 1 := by
      intro r hr
      rcases List.mem_append.mp hr with h1 | h1
      · exact Nat.lt_succ_of_lt (h.1 r h1)
      · have h2 : r = s.next := by simpa using h1
        rw [h2]
        exact Nat.lt_succ_self _
    have hsel : ∀ r, s.selectedEvent = some r → r < s.next + 1 :=
      fun r hr => Nat.lt_succ_of_lt (h.2.2 r hr)
    simp only [handleAddEvent, if_pos hc]
    exact ⟨hst, hst, hsel⟩
  · simp only [handleAddEvent, if_neg hc]
    exact h

theorem handleUpdateEvent_valid (s : Screen) (h : s.Valid) : (handleUpdateEvent s).Valid := by
  cases hsel : s.selectedEvent with
  | none =>
    simp only [handleUpdateEvent, hsel]
    exact h
  | some selected =>
    by_cases hc : s.title ≠ "" ∧ s.date ≠ ""
    · have hst : ∀ r ∈ (updateEvent s.next (s.state.allocate s.next
          { id := (s.state.heap selected).id, title := s.title, date := s.date })).2.events,
          r < s.next + 1 := by
        intro r hr
        simp only [updateEvent, State.allocate, List.mem_map] at hr
        obtain ⟨x, hx, hxr⟩ := hr
        have hlt := h.1 x hx
        have key : ∀ (c : Prop) [Decidable c], (if c then s.next else x) < s.next + 1 := by
          intro c _
          split
          · exact Nat.lt_succ_self _
          · exact Nat.lt_succ_of_lt hlt
        rw [← hxr]
        exact key _
      have hnone : ∀ r : Ref, (none : Option Ref) = some r → r < s.next + 1 := by
        intro r hr
        cases hr
      simp only [handleUpdateEvent, hsel, if_pos hc]
      exact ⟨hst, hst, hnone⟩
    · simp only [handleUpdateEvent, hsel, if_neg hc]
      exact h

theorem handleDeleteEvent_valid (id : Option Int) (s : Screen) (h : s.Valid) :
    (handleDeleteEvent id s).Valid := by
  have hst : ∀ r ∈ (deleteEvent id s.state).2.events, r < s.next :=
    fun r hr => h.1 r ((deleteEvent_sublist id s.state).subset hr)
  exact ⟨hst, hst, h.2.2⟩

/-! ## Claims about single service calls -/

/-- C1 (amended): for every state and every object `newEvent` that the array does not already
hold, `addEvent` returns that object, now with id equal to the current length plus one and with
its title and date as they were; `getEvents` afterwards returns the previous array, every element
unchanged and in the same order, followed by exactly the returned event. -/
theorem addEvent_spec (s : State) (newEvent : Ref) (hfresh : newEvent ∉ s.events) :
    (addEvent newEvent s).1 = newEvent ∧
    ((addEvent newEvent s).2.heap (addEvent newEvent s).1).id =
      some ((s.events.length : Int) + 1) ∧
    ((addEvent newEvent s).2.heap (addEvent newEvent s).1).title = (s.heap newEvent).title ∧
    ((addEvent newEvent s).2.heap (addEvent newEvent s).1).date = (s.heap newEvent).date ∧
    (getEvents (addEvent newEvent s).2).1 = (getEvents s).1 ++ [(addEvent newEvent s).1] ∧
    (addEvent newEvent s).2.contents (getEvents (addEvent newEvent s).2).1 =
      s.contents (getEvents s).1 ++ [(addEvent newEvent s).2.heap (addEvent newEvent s).1] ∧
    (getEvents (addEvent newEvent s).2).2 = (addEvent newEvent s).2 := by
  have hold := addEvent_contents_of_fresh newEvent s s.events hfresh
  refine ⟨rfl, ?_, ?_, ?_, rfl, ?_, rfl⟩
  · simp [addEvent]
  · simp [addEvent]
  · simp [addEvent]
  · have hev : (getEvents (addEvent newEvent s).2).1 = s.events ++ [newEvent] := rfl
    have hret : (addEvent newEvent s).1 = newEvent := rfl
    rw [hev, hret]
    simp only [State.contents, List.map_append, List.map_singleton, List.map_cons, List.map_nil,
      getEvents]
    simp only [State.contents] at hold
    rw [hold]

/-- C1 (witness): a new literal added to the initial array. -/
theorem addEvent_spec_witness :
    (3 : Ref) ∉ (initialState tallerDrafts).events ∧
    (addEvent 3 (initialState tallerDrafts)).2.contents
      (getEvents (addEvent 3 (initialState tallerDrafts)).2).1 =
      (initialState tallerDrafts).contents (getEvents (initialState tallerDrafts)).1 ++
        [{ id := some 4, title := "Taller", date := "2024-11-02" }] :=
  ⟨by decide, by
    have h := (addEvent_spec (initialState tallerDrafts) 3 (by decide)).2.2.2.2.2.1
    rw [h]
    decide⟩

/-- C1 (counterexample): `a = addEvent({title:"Taller", date:"2024-11-02"})` on the initial array,
then `addEvent(a)`. Before the second call `getEvents` shows ids 1, 2, 3, 4; the second call
writes id 5 on the object already stored in fourth place, so afterwards `getEvents` shows ids
1, 2, 3, 5, 5, which is not the previous collection followed by the returned event. -/
theorem addEvent_rewrites_stored_argument :
    (addEvent 3 (initialState tallerDrafts)).2.contents
        (getEvents (addEvent 3 (initialState tallerDrafts)).2).1 =
      [ { id := some 1, title := "Evento de Cumpleaños", date := "2024-10-29" },
        { id := some 2, title := "Reunión de Trabajo", date := "2024-10-30" },
        { id := some 3, title := "Cena Familiar", date := "2024-10-31" },
        { id := some 4, title := "Taller", date := "2024-11-02" } ] ∧
    (addEvent 3 (addEvent 3 (initialState tallerDrafts)).2).2.contents
        (getEvents (addEvent 3 (addEvent 3 (initialState tallerDrafts)).2).2).1 =
      [ { id := some 1, title := "Evento de Cumpleaños", date := "2024-10-29" },
        { id := some 2, title := "Reunión de Trabajo", date := "2024-10-30" },
        { id := some 3, title := "Cena Familiar", date := "2024-10-31" },
        { id := some 5, title := "Taller", date := "2024-11-02" },
        { id := some 5, title := "Taller", date := "2024-11-02" } ] ∧
    ¬ ((addEvent 3 (addEvent 3 (initialState tallerDrafts)).2).2.contents
        (getEvents (addEvent 3 (addEvent 3 (initialState tallerDrafts)).2).2).1 =
      (addEvent 3 (initialState tallerDrafts)).2.contents
        (getEvents (addEvent 3 (initialState tallerDrafts)).2).1 ++
      [(addEvent 3 (addEvent 3 (initialState tallerDrafts)).2).2.heap
        (addEvent 3 (addEvent 3 (initialState tallerDrafts)).2).1]) := by
  decide

/-- C2: `updateEvent e` returns `e` and changes no object; the array afterwards has the same
length, holds `e` at every position whose previous event had id `e.id` and the previous event at
every other position; when no stored event has id `e.id` the array is unchanged. -/
theorem updateEvent_spec (s : State) (e : Ref) :
    (updateEvent e s).1 = e ∧
    (updateEvent e s).2.heap = s.heap ∧
    (getEvents (updateEvent e s).2).1.length = (getEvents s).1.length ∧
    (∀ i : Nat, (getEvents (updateEvent e s).2).1[i]? =
      ((getEvents s).1[i]?).map
        (fun old => if (s.heap old).id = (s.heap e).id then e else old)) ∧
    (∀ i : Nat, ((updateEvent e s).2.contents (getEvents (updateEvent e s).2).1)[i]? =
      ((s.contents (getEvents s).1)[i]?).map
        (fun old => if old.id = (s.heap e).id then s.heap e else old)) ∧
    ((∀ x ∈ (getEvents s).1, (s.heap x).id ≠ (s.heap e).id) →
      (getEvents (updateEvent e s).2).1 = (getEvents s).1 ∧
      (updateEvent e s).2.contents (getEvents (updateEvent e s).2).1 =
        s.contents (getEvents s).1) := by
  refine ⟨rfl, rfl, by simp [updateEvent, getEvents], ?_, ?_, ?_⟩
  · intro i
    simp [updateEvent, getEvents, List.getElem?_map]
  · intro i
    simp only [updateEvent, getEvents, State.contents, List.getElem?_map, Option.map_map]
    cases s.events[i]? with
    | none => rfl
    | some old =>
      simp only [Option.map_some', Function.comp_apply]
      by_cases h : (s.heap old).id = (s.heap e).id <;> simp [h]
  · intro h
    have hev : (getEvents (updateEvent e s).2).1 = (getEvents s).1 := by
      simp only [updateEvent, getEvents]
      conv_rhs => rw [← List.map_id s.events]
      apply List.map_congr_left
      intro x hx
      simp [h x hx]
    refine ⟨hev, ?_⟩
    rw [hev]
    rfl

/-- C2 (witness): on the initial array, an update with an object of id 2 and an update with an
object whose id 7 is absent. -/
theorem updateEvent_spec_witness :
    (updateEvent 3 (initialState (fun _ => ⟨some 2, "Taller", "2024-11-02"⟩))).2.contents
      (getEvents (updateEvent 3 (initialState (fun _ => ⟨some 2, "Taller", "2024-11-02"⟩))).2).1 =
      [ ⟨some 1, "Evento de Cumpleaños", "2024-10-29"⟩, ⟨some 2, "Taller", "2024-11-02"⟩,
        ⟨some 3, "Cena Familiar", "2024-10-31"⟩ ] ∧
    (∀ x ∈ (getEvents (initialState (fun _ => ⟨some 7, "Taller", "2024-11-02"⟩))).1,
      ((initialState (fun _ => ⟨some 7, "Taller", "2024-11-02"⟩)).heap x).id ≠
        ((initialState (fun _ => ⟨some 7, "Taller", "2024-11-02"⟩)).heap 3).id) ∧
    (getEvents (updateEvent 3 (initialState (fun _ => ⟨some 7, "Taller", "2024-11-02"⟩))).2).1 =
      (getEvents (initialState (fun _ => ⟨some 7, "Taller", "2024-11-02"⟩))).1 :=
  ⟨by decide, by decide,
    ((updateEvent_spec (initialState (fun _ => ⟨some 7, "Taller", "2024-11-02"⟩)) 3).2.2.2.2.2
      (by decide)).1⟩

/-- C5: `deleteEvent` is total and always returns `{ success: true }`; when no stored event has
the given id, the state is unchanged: `getEvents` afterwards returns the array it returned
before, holding the same objects. -/
theorem deleteEvent_spec (s : State) (id : Option Int) :
    (deleteEvent id s).1 = { success := true } ∧
    ((∀ r ∈ (getEvents s).1, (s.heap r).id ≠ id) →
      (getEvents (deleteEvent id s).2).1 = (getEvents s).1 ∧
      (deleteEvent id s).2.contents (getEvents (deleteEvent id s).2).1 =
        s.contents (getEvents s).1 ∧
      (deleteEvent id s).2 = s) := by
  refine ⟨rfl, fun h => ?_⟩
  have hs : (deleteEvent id s).2 = s := deleteEvent_of_no_match id s h
  rw [hs]
  exact ⟨rfl, rfl, rfl⟩

/-- C5 (witness): deleting the absent id 9 from the initial array. -/
theorem deleteEvent_spec_witness :
    (∀ r ∈ (getEvents (initialState tallerDrafts)).1,
      ((initialState tallerDrafts).heap r).id ≠ some 9) ∧
    (getEvents (deleteEvent (some 9) (initialState tallerDrafts)).2).1 =
      (getEvents (initialState tallerDrafts)).1 :=
  ⟨by decide, ((deleteEvent_spec (initialState tallerDrafts) (some 9)).2 (by decide)).1⟩

/-- C6: a second `deleteEvent` with the same id returns the same result and leaves the state
exactly as the first call left it. -/
theorem deleteEvent_idempotent (s : State) (id : Option Int) :
    deleteEvent id (deleteEvent id s).2 = deleteEvent id s := by
  simp [deleteEvent, List.filter_filter]

/-- C8: the scenario from the array `[{id:1, title:"A", date:"2024-01-01"}]`: create B returns
`{id:2, title:"B", date:"2024-01-02"}` and the list has length 2; delete 1 leaves exactly the
event B; create C returns an event with id 2 again, so the array holds two events with id 2. -/
theorem scenario_id_reuse :
    scenarioState.contents (getEvents scenarioState).1 = [⟨some 1, "A", "2024-01-01"⟩] ∧
    (addEvent 1 scenarioState).2.heap (addEvent 1 scenarioState).1 =
      ⟨some 2, "B", "2024-01-02"⟩ ∧
    (getEvents (addEvent 1 scenarioState).2).1.length = 2 ∧
    (deleteEvent (some 1) (addEvent 1 scenarioState).2).2.contents
      (getEvents (deleteEvent (some 1) (addEvent 1 scenarioState).2).2).1
      = [⟨some 2, "B", "2024-01-02"⟩] ∧
    (addEvent 2 (deleteEvent (some 1) (addEvent 1 scenarioState).2).2).2.heap
      (addEvent 2 (deleteEvent (some 1) (addEvent 1 scenarioState).2).2).1
      = ⟨some 2, "C", "2024-01-03"⟩ ∧
    (addEvent 2 (deleteEvent (some 1) (addEvent 1 scenarioState).2).2).2.contents
      (getEvents (addEvent 2 (deleteEvent (some 1) (addEvent 1 scenarioState).2).2).2).1
      = [⟨some 2, "B", "2024-01-02"⟩, ⟨some 2, "C", "2024-01-03"⟩] := by
  decide

/-! ## Claims about sequences of service calls -/

/-- C7: starting from an empty array, after any sequence of `addEvent` calls interleaved with
`getEvents` calls, `getEvents` returns exactly as many events as `addEvent` was called, its
`i`-th event is the object given to the `i`-th `addEvent` call, and that event carries the title
and date of that draft. -/
theorem creates_in_order (s : State) (ops : List StoreOp) (drafts : List Ref)
    (hempty : s.events = []) (hops : ∀ op ∈ ops, op.isListOrCreate = true)
    (hdrafts : creates ops = drafts) :
    (getEvents (run ops s)).1.length = drafts.length ∧
    ∀ (i : Nat) (d : Ref), drafts[i]? = some d →
      (getEvents (run ops s)).1[i]? = some d ∧
      (((run ops s).contents (getEvents (run ops s)).1)[i]?).map
          (fun event => (event.title, event.date)) =
        some ((s.heap d).title, (s.heap d).date) := by
  subst hdrafts
  obtain ⟨hev, hheap⟩ := run_listOrCreate ops hops s
  rw [hempty, List.nil_append] at hev
  refine ⟨by simp only [getEvents, hev], ?_⟩
  intro i d hd
  refine ⟨by simpa only [getEvents, hev] using hd, ?_⟩
  simp only [getEvents, State.contents, hev, List.getElem?_map, hd, Option.map_some',
    (hheap d).1, (hheap d).2]

/-- C7 (witness): from the empty array, the literal B is created twice and the literal C once,
with list calls in between. -/
theorem creates_in_order_witness :
    (getEvents (run [StoreOp.list, StoreOp.create 1, StoreOp.list, StoreOp.create 1,
        StoreOp.create 2] { scenarioState with events := [] })).1.length = 3 ∧
    ∀ (i : Nat) (d : Ref), ([1, 1, 2] : List Ref)[i]? = some d →
      (getEvents (run [StoreOp.list, StoreOp.create 1, StoreOp.list, StoreOp.create 1,
        StoreOp.create 2] { scenarioState with events := [] })).1[i]? = some d ∧
      (((run [StoreOp.list, StoreOp.create 1, StoreOp.list, StoreOp.create 1,
          StoreOp.create 2] { scenarioState with events := [] }).contents
        (getEvents (run [StoreOp.list, StoreOp.create 1, StoreOp.list, StoreOp.create 1,
          StoreOp.create 2] { scenarioState with events := [] })).1)[i]?).map
          (fun event => (event.title, event.date)) =
        some ((({ scenarioState with events := [] } : State).heap d).title,
          (({ scenarioState with events := [] } : State).heap d).date) :=
  creates_in_order { scenarioState with events := [] }
    [StoreOp.list, StoreOp.create 1, StoreOp.list, StoreOp.create 1, StoreOp.create 2]
    [1, 1, 2] rfl (by decide) (by decide)

/-- C10: from the hardcoded initial array, without any `deleteEvent` call:
`a = addEvent({title:"Taller", date:"2024-11-02"})` followed by `addEvent(a)` leaves the ids
1, 2, 3, 5, 5, and `updateEvent(u)` followed by `addEvent(u)` for an object `u` of id 2 leaves the
ids 1, 4, 3, 4; in both, the ids are neither 1..n in order nor pairwise distinct. -/
theorem ids_repeat_after_adding_stored_event :
    (∀ op ∈ [StoreOp.create 3, StoreOp.create 3], op.isNotDelete = true) ∧
    (getEvents (run [StoreOp.create 3, StoreOp.create 3] (initialState tallerDrafts))).1 =
      [0, 1, 2, 3, 3] ∧
    (run [StoreOp.create 3, StoreOp.create 3] (initialState tallerDrafts)).ids =
      [some 1, some 2, some 3, some 5, some 5] ∧
    ¬ (run [StoreOp.create 3, StoreOp.create 3] (initialState tallerDrafts)).ids.Nodup ∧
    (∀ op ∈ [StoreOp.update 3, StoreOp.create 3], op.isNotDelete = true) ∧
    (run [StoreOp.update 3, StoreOp.create 3]
      (initialState (fun _ => ⟨some 2, "Taller", "2024-11-02"⟩))).ids =
      [some 1, some 4, some 3, some 4] ∧
    ¬ (run [StoreOp.update 3, StoreOp.create 3]
      (initialState (fun _ => ⟨some 2, "Taller", "2024-11-02"⟩))).ids.Nodup := by
  decide

/-- C4: after `deleteEvent(1)` and one `addEvent` of a new literal on the initial array the ids
returned by `getEvents` are 2, 3, 3: `addEvent` hands out the id of a stored event, so the ids are
not pairwise distinct. -/
theorem ids_repeat_after_delete_then_create :
    (3 : Ref) ∉ (run [StoreOp.delete (some 1)] (initialState tallerDrafts)).events ∧
    ((run [StoreOp.delete (some 1), StoreOp.create 3] (initialState tallerDrafts)).contents
      (getEvents (run [StoreOp.delete (some 1), StoreOp.create 3]
        (initialState tallerDrafts))).1).map Event.id = [some 2, some 3, some 3] ∧
    ¬ (((run [StoreOp.delete (some 1), StoreOp.create 3] (initialState tallerDrafts)).contents
      (getEvents (run [StoreOp.delete (some 1), StoreOp.create 3]
        (initialState tallerDrafts))).1).map Event.id).Nodup := by
  decide

/-- C3: on the array reached from the initial one by `deleteEvent(1)` and one `addEvent` of a new
literal, the id 3 matches a stored event and `deleteEvent(3)` removes two events, leaving one of
three. -/
theorem deleteEvent_removes_two_after_id_reuse :
    (∃ r ∈ (run [StoreOp.delete (some 1), StoreOp.create 3] (initialState tallerDrafts)).events,
      ((run [StoreOp.delete (some 1), StoreOp.create 3] (initialState tallerDrafts)).heap r).id
        = some 3) ∧
    (getEvents (run [StoreOp.delete (some 1), StoreOp.create 3]
      (initialState tallerDrafts))).1.length = 3 ∧
    (deleteEvent (some 3)
      (run [StoreOp.delete (some 1), StoreOp.create 3] (initialState tallerDrafts))).2.contents
      (getEvents (deleteEvent (some 3)
        (run [StoreOp.delete (some 1), StoreOp.create 3] (initialState tallerDrafts))).2).1
      = [⟨some 2, "Reunión de Trabajo", "2024-10-30"⟩] := by
  decide

/-! ## Claims about the screen -/

/-- C9: a submit with both fields non-empty (through `onPress`, `handleAddEvent`, or
`handleUpdateEvent` with a selected event) and every `handleDeleteEvent` perform the service call
on the store and end with the displayed list equal to the store; a submit with an empty title or
an empty date leaves the whole state unchanged. -/
theorem screen_reload_spec (s : Screen) :
    (s.title ≠ "" → s.date ≠ "" →
      (onPress s).events = (getEvents (onPress s).state).1 ∧
      (handleAddEvent s).events = (getEvents (handleAddEvent s).state).1 ∧
      (handleAddEvent s).state =
        (addEvent s.next
          (s.state.allocate s.next { id := none, title := s.title, date := s.date })).2 ∧
      ∀ selected : Ref, s.selectedEvent = some selected →
        (handleUpdateEvent s).events = (getEvents (handleUpdateEvent s).state).1 ∧
        (handleUpdateEvent s).state =
          (updateEvent s.next (s.state.allocate s.next
            { id := (s.state.heap selected).id, title := s.title, date := s.date })).2) ∧
    (∀ id : Option Int,
      (handleDeleteEvent id s).events = (getEvents (handleDeleteEvent id s).state).1 ∧
      (handleDeleteEvent id s).state = (deleteEvent id s.state).2) ∧
    (s.title = "" ∨ s.date = "" →
      onPress s = s ∧ handleAddEvent s = s ∧ handleUpdateEvent s = s) := by
  refine ⟨?_, ?_, ?_⟩
  · intro ht hd
    refine ⟨?_, ?_, ?_, ?_⟩
    · unfold onPress handleUpdateEvent handleAddEvent
      cases hsel : s.selectedEvent <;> simp [ht, hd, loadEvents, getEvents]
    · simp [handleAddEvent, ht, hd, loadEvents, getEvents]
    · simp [handleAddEvent, ht, hd, loadEvents, getEvents]
    · intro selected hsel
      simp [handleUpdateEvent, hsel, ht, hd, loadEvents, getEvents]
  · intro id
    simp [handleDeleteEvent, loadEvents, getEvents]
  · intro h
    have hne : ¬ (s.title ≠ "" ∧ s.date ≠ "") := by
      rintro ⟨h1, h2⟩
      rcases h with h | h
      · exact h1 h
      · exact h2 h
    have hadd : handleAddEvent s = s := by simp only [handleAddEvent, if_neg hne]
    have hupd : handleUpdateEvent s = s := by
      unfold handleUpdateEvent
      cases hsel : s.selectedEvent <;> simp only [if_neg hne]
    refine ⟨?_, hadd, hupd⟩
    unfold onPress
    split <;> assumption

/-- C9 (witness): a submit with title and date typed on the freshly mounted screen, and a submit
with an empty title. -/
theorem screen_reload_spec_witness :
    (onPress { Screen.mount with title := "Taller", date := "2024-11-02" }).events =
      (getEvents (onPress { Screen.mount with title := "Taller", date := "2024-11-02" }).state).1 ∧
    onPress { Screen.mount with date := "2024-11-02" } =
      { Screen.mount with date := "2024-11-02" } :=
  ⟨((screen_reload_spec { Screen.mount with title := "Taller", date := "2024-11-02" }).1
      (by decide) (by decide)).1,
    ((screen_reload_spec { Screen.mount with date := "2024-11-02" }).2.2
      (Or.inl (by decide))).1⟩

end Calendario
